import Mathlib

/-!
Verification development for the ai-agent development workflow engine
(plan/implement/verify pipeline with unified-diff patch handling).

The definitions below are a shallow embedding of the Python sources:
`dev_workflow.py`, `implementer.py`, `orchestrator.py`, `verifier.py`.
External effects (the `git apply` subprocess, the unidiff `PatchSet`
parser, test subprocesses, the generator model) are modelled as explicit
oracle parameters; all repository-level control flow and string
processing is translated directly from the source.
-/

deriving instance DecidableEq for Except

namespace AiAgent

/-! ### Python-style string primitives (structural, kernel-computable) -/

/-- Split a character list at every character satisfying `p`
(like Python `str.split(sep)` with every separator kept as a boundary). -/
def chSplitP (p : Char → Bool) : List Char → List (List Char)
  | [] => [[]]
  | a :: rest =>
    let r := chSplitP p rest
    if p a then [] :: r
    else
      match r with
      | [] => [[a]]
      | h :: t => (a :: h) :: t

/-- Normalize line endings: CRLF and lone CR both become LF. -/
def chNormNl : List Char → List Char
  | [] => []
  | '\r' :: '\n' :: rest => '\n' :: chNormNl rest
  | '\r' :: rest => '\n' :: chNormNl rest
  | a :: rest => a :: chNormNl rest

/-- Python `str.splitlines()` restricted to LF/CR/CRLF line breaks:
split on newline boundaries, with no trailing empty line for a final
newline, and `[]` for the empty string. -/
def pySplitlines (s : String) : List String :=
  let cs := chNormNl s.data
  if cs = [] then []
  else
    let parts := chSplitP (fun c => c = '\n') cs
    let parts := if parts.getLast? = some [] then parts.dropLast else parts
    parts.map String.mk

/-- Python `s.startswith(pre)`. -/
def pyStartswith (pre s : String) : Bool :=
  pre.data.isPrefixOf s.data

/-- Substring containment on character lists. -/
def chContainsSub (pat : List Char) : List Char → Bool
  | [] => pat.isPrefixOf []
  | a :: rest => pat.isPrefixOf (a :: rest) || chContainsSub pat rest

/-- Python `sub in s`. -/
def pyIn (sub s : String) : Bool :=
  chContainsSub sub.data s.data

/-- Python `str.strip()` (whitespace at both ends). -/
def pyStrip (s : String) : String :=
  String.mk (((s.data.dropWhile Char.isWhitespace).reverse.dropWhile Char.isWhitespace).reverse)

/-- Python `str.rstrip()` (trailing whitespace). -/
def pyRstripWs (s : String) : String :=
  String.mk ((s.data.reverse.dropWhile Char.isWhitespace).reverse)

/-- Python `str.rstrip("\n")`. -/
def pyRstripNl (s : String) : String :=
  String.mk ((s.data.reverse.dropWhile (fun c => c = '\n')).reverse)

/-- Fuel-bounded worker for `chReplace` (the fuel is the list length, so
it never runs out; structural recursion keeps it kernel-computable). -/
def chReplaceAux (pat rep : List Char) : Nat → List Char → List Char
  | 0, l => l
  | _, [] => []
  | fuel + 1, a :: rest =>
    if pat.isPrefixOf (a :: rest) then
      rep ++ chReplaceAux pat rep fuel (List.drop (pat.length - 1) rest)
    else
      a :: chReplaceAux pat rep fuel rest

/-- Python `str.replace(pat, rep)`: replace every non-overlapping
occurrence, left to right (for non-empty `pat`). -/
def pyReplace (s pat rep : String) : String :=
  if pat.data = [] then s
  else String.mk (chReplaceAux pat.data rep.data s.data.length s.data)

/-- Python `str.split()` (split on whitespace runs, dropping empties). -/
def pySplitWs (s : String) : List String :=
  ((chSplitP Char.isWhitespace s.data).filter (fun l => l ≠ [])).map String.mk

/-- Python `"\n".join(xs)`. -/
def joinNl : List String → String
  | [] => ""
  | [x] => x
  | x :: y :: rest => x ++ "\n" ++ joinNl (y :: rest)

example : pySplitlines "a\nb\n" = ["a", "b"] := by decide
example : pySplitlines "" = [] := by decide
example : pySplitlines "a\n\n" = ["a", ""] := by decide
example : pyIn "diff --git" "xx diff --git a/f" = true := by decide
example : pyReplace "a/b/c" "b/" "" = "a/c" := by decide
example : joinNl ["a", "b"] = "a\nb" := by rfl

/-! ### Patch model and parser (`dev_workflow.parse_patch_hunks`) -/

/-- One parsed per-file diff block: the recovered target path and the raw
hunk texts in order (source: `dev_workflow.parse_patch_hunks`). -/
structure HunkBlock where
  file : String
  hunks : List String
  deriving Repr, DecidableEq

/-- Split the patch lines into per-file blocks at every line starting
with `diff --git`; lines before the first such marker are dropped
(source: `dev_workflow.parse_patch_hunks`, first loop). -/
def splitDiffBlocks (lines : List String) : List (List String) :=
  let step := fun (acc : List (List String) × List String) (ln : String) =>
    if pyStartswith "diff --git" ln then
      (if acc.2 ≠ [] then acc.1 ++ [acc.2] else acc.1, [ln])
    else if acc.2 ≠ [] then (acc.1, acc.2 ++ [ln]) else acc
  let fin := lines.foldl step ([], [])
  if fin.2 ≠ [] then fin.1 ++ [fin.2] else fin.1

/-- Recover the target path from the first `+++ ` line of a block,
removing a `b/` path marker; empty if no such line yields a path. -/
def targetFromPlus (block : List String) : String :=
  match block.find? (fun ln => pyStartswith "+++ " ln) with
  | some ln =>
    let t := pyStrip (String.mk (ln.data.drop 4))
    if pyStartswith "b/" t then String.mk (t.data.drop 2) else t
  | none => ""

/-- Fallback target recovery from the `diff --git` boundary line's
4th whitespace-separated token (source: parse loop's second branch). -/
def targetFromHeader (block : List String) : String :=
  match block with
  | [] => ""
  | first :: _ =>
    let parts := pySplitWs first
    match parts.get? 3 with
    | some t => if pyStartswith "b/" t then String.mk (t.data.drop 2) else t
    | none => ""

/-- Target path of a block: the `+++ ` line when it yields a non-empty
path, otherwise the header token fallback. -/
def blockTarget (block : List String) : String :=
  let t := targetFromPlus block
  if t ≠ "" then t else targetFromHeader block

/-- Split a block's lines into hunk texts at every `@@` line; lines
before the first `@@` are dropped (source: parse loop's hunk scan). -/
def splitHunks (lines : List String) : List String :=
  let step := fun (acc : List String × List String) (ln : String) =>
    if pyStartswith "@@" ln then
      (if acc.2 ≠ [] then acc.1 ++ [joinNl acc.2] else acc.1, [ln])
    else if acc.2 ≠ [] then (acc.1, acc.2 ++ [ln]) else acc
  let fin := lines.foldl step ([], [])
  if fin.2 ≠ [] then fin.1 ++ [joinNl fin.2] else fin.1

/-- Embedding of `dev_workflow.parse_patch_hunks`: per-file blocks with
recovered target (or the literal `unknown`) and raw hunks. -/
def parse_patch_hunks (patch_text : String) : List HunkBlock :=
  (splitDiffBlocks (pySplitlines patch_text)).map fun block =>
    let t := blockTarget block
    { file := if t ≠ "" then t else "unknown", hunks := splitHunks block }

/-- Sanity: a two-hunk single-file patch parses into one block with the
two raw hunk texts in order. -/
example :
    parse_patch_hunks
      "diff --git a/f.py b/f.py\n--- a/f.py\n+++ b/f.py\n@@ -1 +1 @@\n-a\n+b\n@@ -5 +5 @@\n-c\n+d\n"
    = [{ file := "f.py",
         hunks := ["@@ -1 +1 @@\n-a\n+b", "@@ -5 +5 @@\n-c\n+d"] }] := by decide

/-! ### Partial serialization (`apply_plan_hunks`, `apply_plan_files`) -/

/-- Python `selections.get(path, [])` over an association list. -/
def selGet (sels : List (String × List Int)) (k : String) : List Int :=
  match sels.find? (fun p => p.1 = k) with
  | some p => p.2
  | none => []

/-- Guard `0 <= idx < len(...)` of the list comprehension in
`apply_plan_hunks`. -/
def inRange (n : Nat) (idx : Int) : Bool :=
  decide (0 ≤ idx) && decide (idx < (n : Int))

/-- Hunk selection by index list, in the order the selection lists them,
keeping only indices in `[0, hs.length)` (source: `apply_plan_hunks`,
the guarded list comprehension). -/
def hunksChosen (hs : List String) (chosen : List Int) : List String :=
  chosen.filterMap fun idx =>
    if inRange hs.length idx then hs.get? idx.toNat else none

/-- Synthesized three-line file header used by both partial serializers. -/
def synthHeader (target : String) : String :=
  "diff --git a/" ++ target ++ " b/" ++ target ++ "\n--- a/" ++ target ++
    "\n+++ b/" ++ target ++ "\n"

/-- Contribution of one parsed block under a selection: `none` when the
selection for its file is empty or yields no in-range hunks. -/
def blockOut (b : HunkBlock) (chosen : List Int) : Option String :=
  if chosen = [] then none
  else
    let hs := hunksChosen b.hunks chosen
    if hs = [] then none else some (synthHeader b.file ++ joinNl hs)

/-- Value of `out_blocks` in `apply_plan_hunks`. -/
def hunksBlocks (patch : String) (sels : List (String × List Int)) : List String :=
  (parse_patch_hunks patch).filterMap fun b => blockOut b (selGet sels b.file)

/-- Serialization core of `dev_workflow.apply_plan_hunks` (the part
between loading the stored patch and invoking `apply_patch_text`):
selects hunks per file and reassembles a partial diff, failing when
nothing was selected. -/
def apply_plan_hunks_core (patch : String) (sels : List (String × List Int)) :
    Except String String :=
  if hunksBlocks patch sels = [] then Except.error "No hunks selected"
  else Except.ok (joinNl (hunksBlocks patch sels))

/-! ### Abstract unidiff `PatchSet` model

The `unidiff` library is external to the repository; its parsed form is
modelled abstractly: a patched file carries the header-derived names and
its hunks, a hunk carries its `@@` header and the serialized values of
its lines (`line.value` with the trailing newline kept, exactly what
`apply_plan_files` reads). A parse function `String → Except String
(List ...)` stands for `PatchSet(...)`, quantified over in theorems. -/

/-- One hunk as seen through the `unidiff` API surface the code uses. -/
structure UHunk where
  header : String
  lineVals : List String
  deriving Repr, DecidableEq

/-- One patched file as seen through the `unidiff` API surface. -/
structure PSFile where
  target_file : Option String
  path : String
  source_file : Option String
  hunks : List UHunk
  deriving Repr, DecidableEq

/-- Python `a or b` for an optional string, where both `None` and the
empty string are falsy. -/
def pyOrS (a : Option String) (b : String) : String :=
  match a with
  | some s => if s = "" then b else s
  | none => b

/-- Touched path as computed by `Implementer._validate_patch`
(`pf.target_file or pf.path or pf.source_file or ""`, then the same
replacements). -/
def validateTarget (pf : PSFile) : String :=
  pyReplace
    (pyReplace (pyOrS pf.target_file (if pf.path ≠ "" then pf.path else pyOrS pf.source_file ""))
      "b/" "")
    "a/" ""

/-- Touched path as computed by `apply_plan_files`
(`pf.target_file or pf.path or ""`, then the same replacements). -/
def filesTarget (pf : PSFile) : String :=
  pyReplace (pyReplace (pyOrS pf.target_file pf.path) "b/" "") "a/" ""

/-- Serialization of one hunk in `apply_plan_files`: the `@@` header
with trailing whitespace stripped, then each line value with its
trailing newlines stripped, keeping only non-empty strings. -/
def serializeHunk (h : UHunk) : String :=
  let hLines := pyRstripWs h.header :: h.lineVals.map pyRstripNl
  joinNl (hLines.filter (fun ln => ln ≠ ""))

/-- Value of `out_blocks` in `apply_plan_files`. -/
def filesBlocks (ps : List PSFile) (files : List String) : List String :=
  ps.filterMap fun pf =>
    let target := filesTarget pf
    if target ∈ files then
      let hunks := pf.hunks.map serializeHunk
      if hunks = [] then none else some (synthHeader target ++ joinNl hunks)
    else none

/-- Serialization core of `dev_workflow.apply_plan_files` over a parsed
patch set: keeps the files whose normalized target is in `files`, gives
each a synthesized header plus all its hunks, and drops files with no
hunks; fails when no block remains. -/
def apply_plan_files_core (ps : List PSFile) (files : List String) :
    Except String String :=
  if filesBlocks ps files = [] then Except.error "No matching files found in patch"
  else Except.ok (joinNl (filesBlocks ps files))

/-! ### Implementer validation (`implementer.Implementer._validate_patch`) -/

/-- Structured counterpart of the distinct `PatchValidationError` raise
sites in `_validate_patch`. -/
inductive PVE
  | emptyPatch
  | notDiff
  | parseFailed (msg : String)
  | outOfScope (target : String)
  | noFiles
  deriving Repr, DecidableEq

/-- Insertion of a string into a ≤-sorted list. -/
def insertSorted (x : String) : List String → List String
  | [] => [x]
  | y :: ys => if x < y ∨ x = y then x :: y :: ys else y :: insertSorted x ys

/-- Python `sorted(set(l))`: duplicates removed, ascending order. -/
def pySortedSet (l : List String) : List String :=
  (l.dedup).foldr insertSorted []

/-- Scope scan of `_validate_patch`: walk the parsed files, failing at
the first file outside a non-empty allowed list, otherwise collecting
every normalized touched path. -/
def scanFiles (allowed : List String) : List PSFile → Except PVE (List String)
  | [] => Except.ok []
  | pf :: rest =>
    let target := validateTarget pf
    if allowed ≠ [] ∧ target ∉ allowed then Except.error (PVE.outOfScope target)
    else (scanFiles allowed rest).map (fun ts => target :: ts)

/-- Embedding of `Implementer._validate_patch`, with the external
`unidiff.PatchSet` parser abstracted as `parsePS`. Returns the sorted
unique touched files and the stripped patch text. -/
def validate_patch (parsePS : String → Except String (List PSFile))
    (patch_text : String) (allowed_files : List String) :
    Except PVE (List String × String) :=
  let patch := pyStrip patch_text
  if patch = "" then Except.error PVE.emptyPatch
  else if ¬ pyIn "diff --git" patch then Except.error PVE.notDiff
  else
    match parsePS patch with
    | Except.error msg => Except.error (PVE.parseFailed msg)
    | Except.ok ps =>
      match scanFiles allowed_files ps with
      | Except.error e => Except.error e
      | Except.ok touched =>
        if touched = [] then Except.error PVE.noFiles
        else Except.ok (pySortedSet touched, patch)

/-! ### Implementation stage (`dev_workflow.implement_plan`) -/

/-- One entry of `implementation.attempts`: either the error record
appended by the `except PatchValidationError` handler, or a validated
attempt produced by `Implementer.generate_patch`. -/
inductive AttemptEntry
  | errorEntry (err : PVE) (feedback : Option String)
  | okEntry (raw : String) (files : List String) (patch : String) (feedback : Option String)
  deriving Repr, DecidableEq

/-- Plan-record implementation section: the attempts list and the last
validated patch. -/
structure ImplState where
  attempts : List AttemptEntry
  final_patch : Option String
  deriving Repr, DecidableEq

/-- State transition of `implement_plan`: validate the generator output
`raw`; on failure append an error entry and re-raise, on success append
the attempt and update `final_patch`. -/
def implement_plan_step (parsePS : String → Except String (List PSFile))
    (allowed : List String) (raw : String) (feedback : Option String)
    (st : ImplState) : ImplState × Except PVE AttemptEntry :=
  match validate_patch parsePS raw allowed with
  | Except.error e =>
    ({ st with attempts := st.attempts ++ [AttemptEntry.errorEntry e feedback] },
     Except.error e)
  | Except.ok (files, patch) =>
    let entry := AttemptEntry.okEntry raw files patch feedback
    ({ attempts := st.attempts ++ [entry], final_patch := some patch },
     Except.ok entry)

/-! ### Patch application (`dev_workflow.apply_patch_text`) -/

/-- Which step of the fallback chain a recorded attempt came from:
plain apply, apply after pre-creating files, apply after unidiff
reserialization, the pseudo-attempt recorded when reserialization
itself fails, or the final reject-mode apply. -/
inductive StratKind
  | s1
  | s2
  | s3
  | parseFail
  | rejectMode
  deriving Repr, DecidableEq

/-- One recorded attempt: its strategy and the subprocess return code. -/
structure GitAttempt where
  kind : StratKind
  returncode : Int
  deriving Repr, DecidableEq

/-- One collected `.rej` fragment. -/
structure RejFrag where
  path : String
  content : String
  deriving Repr, DecidableEq

/-- Oracle for the external effects of `apply_patch_text`: the return
codes of the up-to-four `git apply` invocations, whether the unidiff
reserialization parse succeeds, and the reject fragments found on disk
after reject mode. -/
structure ApplyOracle where
  rc1 : Int
  rc2 : Int
  parse3ok : Bool
  rc3 : Int
  rcReject : Int
  rejects : List RejFrag
  deriving Repr, DecidableEq

/-- Result dictionary of `apply_patch_text`. -/
structure ApplyTextRes where
  ok : Bool
  attempts : List GitAttempt
  rejected : List RejFrag
  deriving Repr, DecidableEq

/-- Embedding of `dev_workflow.apply_patch_text`: the ordered fallback
chain, stopping at the first zero return code of strategies 1–3, with
reject mode always reported as failure. -/
def apply_patch_text (o : ApplyOracle) : ApplyTextRes :=
  let a1 : GitAttempt := ⟨StratKind.s1, o.rc1⟩
  if o.rc1 = 0 then ⟨true, [a1], []⟩
  else
    let a2 : GitAttempt := ⟨StratKind.s2, o.rc2⟩
    if o.rc2 = 0 then ⟨true, [a1, a2], []⟩
    else if o.parse3ok then
      let a3 : GitAttempt := ⟨StratKind.s3, o.rc3⟩
      if o.rc3 = 0 then ⟨true, [a1, a2, a3], []⟩
      else ⟨false, [a1, a2, a3, ⟨StratKind.rejectMode, o.rcReject⟩], o.rejects⟩
    else
      ⟨false, [a1, a2, ⟨StratKind.parseFail, -1⟩, ⟨StratKind.rejectMode, o.rcReject⟩],
        o.rejects⟩

/-! ### Sandbox executor (`orchestrator.sandbox_test_plan`) -/

/-- Version-control state visible to the branch-mode sandbox. -/
structure GitState where
  current : String
  branches : List String
  dirty : Bool
  deriving Repr, DecidableEq

/-- Result record of a sandbox run, with an explicit flag recording
whether the test command was started. -/
structure SandboxRes where
  applied : Bool
  ranTests : Bool
  error : Option String
  deriving Repr, DecidableEq

/-- Name of the sandbox branch for a plan. -/
def sandboxBranchName (plan_id : String) : String :=
  "agent-sandbox-" ++ plan_id

/-- Branch mode of `sandbox_test_plan` (orchestrator.py lines 77–113):
fail fast on a dirty tree; force-recreate the sandbox branch; apply the
patch (`applyO`, whose `Except.error` models an exception escaping
`apply_patch_text`); on apply failure restore and delete the branch; on
success run tests (`testO`) and then restore. The `except Exception`
handler at line 112 returns an error record without touching the tree,
exactly as in the source. -/
def sandbox_branch_mode (plan_id : String) (applyO : Except String Bool)
    (testO : Except String Int) (s : GitState) : SandboxRes × GitState :=
  if s.dirty then
    (⟨false, false, some "Repo dirty. Please commit/stash changes before sandbox testing."⟩, s)
  else
    let orig := s.current
    let sb := sandboxBranchName plan_id
    let s1 := if sb ∈ s.branches then { s with branches := s.branches.erase sb } else s
    let s2 := { s1 with current := sb, branches := sb :: s1.branches }
    match applyO with
    | Except.error e => (⟨false, false, some e⟩, s2)
    | Except.ok applyOk =>
      if applyOk = false then
        let s3 := { s2 with current := orig, branches := s2.branches.erase sb }
        (⟨false, false, some "git apply failed"⟩, s3)
      else
        match testO with
        | Except.error e => (⟨false, true, some e⟩, s2)
        | Except.ok _ =>
          let s3 := { s2 with current := orig, branches := s2.branches.erase sb }
          (⟨true, true, none⟩, s3)

/-- Copy mode of `sandbox_test_plan` (orchestrator.py lines 114–156):
the ephemeral directory is not part of the caller-visible state, so only
the result record is modelled. -/
def sandbox_copy_mode (applyO : Except String Bool) (testO : Except String Int) :
    SandboxRes :=
  match applyO with
  | Except.error e => ⟨false, false, some e⟩
  | Except.ok applyOk =>
    if applyOk = false then ⟨false, false, some "git apply failed in temp repo"⟩
    else
      match testO with
      | Except.error e => ⟨false, true, some e⟩
      | Except.ok _ => ⟨true, true, none⟩

/-! ### Verifier call compatibility (`verifier.Verifier.run`) -/

/-- Keyword parameters accepted by `orchestrator.sandbox_test_plan`
(its `def` line: `plan_id`, `timeout_seconds`). -/
def sandbox_test_plan_params : List String :=
  ["plan_id", "timeout_seconds"]

/-- Keyword arguments `Verifier.run` passes to `sandbox_test_plan`
(verifier.py line 15). -/
def verifier_run_kwargs : List String :=
  ["timeout_seconds", "extra_commands"]

/-- Python call semantics for keyword arguments: a call raises
`TypeError` before entering the callee when a keyword is not among the
callee's parameters. -/
def pyCallKw {α : Type} (params kwargs : List String) (body : α) : Except String α :=
  if kwargs.all (fun k => params.contains k) then Except.ok body
  else Except.error "TypeError"

/-- Embedding of `Verifier.run`'s sandbox invocation: the call itself,
with the sandbox body abstracted. `Verifier.run` has no handler, so a
call error propagates. -/
def verifier_run_call {α : Type} (sandboxBody : α) : Except String α :=
  pyCallKw sandbox_test_plan_params verifier_run_kwargs sandboxBody

/-! ### Verify/auto-fix loop (`dev_workflow.verify_plan`) -/

/-- Outcome of the self-correction call inside the loop: `implement_plan`
returns, raises `PatchValidationError` (caught, loop breaks), or raises
anything else (propagates). -/
inductive ImplO
  | succeeds
  | raisesPVE
  | raisesOther (msg : String)
  deriving Repr, DecidableEq

/-- Outcome of one `verifier.run` round: a result record (its status,
whether the synthesized feedback is non-empty, and how the subsequent
self-correction behaves), or an exception escaping `verifier.run`. -/
inductive RoundO
  | result (status : String) (hasFeedback : Bool) (impl : ImplO)
  | raises (msg : String)

/-- Worker for the `while rounds < max_rounds` loop of `verify_plan`:
`fuel` is `max_rounds - rounds`, `k` counts executed rounds, `attempts`
is the persisted verification attempts list (appended in place), `st`
the current status. -/
def verify_go (oracle : Nat → RoundO) (auto_fix : Bool) :
    Nat → Nat → List String → String → Except String (List String × String)
  | 0, _, attempts, st => Except.ok (attempts, st)
  | fuel + 1, k, attempts, st =>
    match oracle k with
    | RoundO.raises msg => Except.error msg
    | RoundO.result status hasFb impl =>
      let attempts' := attempts ++ [status]
      if status = "passed" then Except.ok (attempts', status)
      else if auto_fix = false ∨ fuel = 0 then Except.ok (attempts', status)
      else if hasFb = false then Except.ok (attempts', status)
      else
        match impl with
        | ImplO.raisesPVE => Except.ok (attempts', status)
        | ImplO.raisesOther msg => Except.error msg
        | ImplO.succeeds => verify_go oracle auto_fix fuel (k + 1) attempts' status

/-- Embedding of the loop of `verify_plan(plan_id, auto_fix, max_rounds)`
starting from the plan's persisted verification attempts and status. -/
def verify_plan_loop (oracle : Nat → RoundO) (auto_fix : Bool) (max_rounds : Nat)
    (initAttempts : List String) (initStatus : String) :
    Except String (List String × String) :=
  verify_go oracle auto_fix max_rounds 0 initAttempts initStatus

/-- Round oracle induced by the actual `Verifier.run` of verifier.py:
every round performs the `sandbox_test_plan(..., extra_commands=...)`
call. -/
def faithfulRound (sandboxBody : SandboxRes) (mk : SandboxRes → RoundO) : Nat → RoundO :=
  fun _ =>
    match verifier_run_call sandboxBody with
    | Except.error msg => RoundO.raises msg
    | Except.ok r => mk r

/-! ### Full application (`dev_workflow.apply_plan`) -/

/-- Result record of `apply_plan`. -/
structure ApplyPlanRes where
  applied : Bool
  commit : String
  testsRc : Int
  deriving Repr, DecidableEq

/-- Externally visible steps `apply_plan` performs, in order. -/
inductive PlanEvent
  | appliedPatch
  | committed
  | ranTests
  deriving Repr, DecidableEq

/-- Embedding of `apply_plan`: requires a stored patch, then invokes
`apply_patch_text` (its result is bound to no name in the source),
commits, runs tests, and reports `applied := true` unconditionally. -/
def apply_plan_core (final_patch : Option String) (applyRes : ApplyTextRes)
    (commitSha : String) (testsRc : Int) :
    Except String (ApplyPlanRes × List PlanEvent) :=
  match final_patch with
  | none => Except.error "No patch stored for plan. Run implement_plan first."
  | some _ =>
    let _ := applyRes
    Except.ok ({ applied := true, commit := commitSha, testsRc := testsRc },
      [PlanEvent.appliedPatch, PlanEvent.committed, PlanEvent.ranTests])

/-! ### Concrete instances used in counterexamples and witnesses -/

/-- Patched file for a one-file diff touching `x.py`, as `unidiff`
reports it. -/
def cexPSFile : PSFile :=
  { target_file := some "b/x.py", path := "x.py", source_file := none, hunks := [] }

/-- Parse oracle returning that single file. -/
def cexParse : String → Except String (List PSFile) :=
  fun _ => Except.ok [cexPSFile]

/-- Generator output used with `cexParse`. -/
def cexRaw : String :=
  "diff --git a/x.py b/x.py"

/-- Two-hunk single-file patch text. -/
def cexPatch : String :=
  "diff --git a/f.py b/f.py\n--- a/f.py\n+++ b/f.py\n@@ -1 +1 @@\n-a\n+b\n@@ -5 +5 @@\n-c\n+d\n"

/-! ### Helper lemmas -/

/-- Bound on the attempts growth of the verify loop: a normal return
appends between `0` and `fuel` entries. -/
theorem verify_go_ok_length (oracle : Nat → RoundO) (auto_fix : Bool) :
    ∀ (fuel k : Nat) (attempts : List String) (st : String)
      (res : List String × String),
      verify_go oracle auto_fix fuel k attempts st = Except.ok res →
      attempts.length ≤ res.1.length ∧ res.1.length ≤ attempts.length + fuel := by
  intro fuel
  induction fuel with
  | zero =>
    intro k attempts st res h
    rw [verify_go] at h
    cases h
    simp
  | succ n ih =>
    intro k attempts st res h
    rw [verify_go] at h
    cases ho : oracle k with
    | raises m => rw [ho] at h; cases h
    | result status hasFb impl =>
      rw [ho] at h
      dsimp only at h
      by_cases h1 : status = "passed"
      · rw [if_pos h1] at h
        cases h
        simp
      · rw [if_neg h1] at h
        by_cases h2 : auto_fix = false ∨ n = 0
        · rw [if_pos h2] at h
          cases h
          simp
        · rw [if_neg h2] at h
          by_cases h3 : hasFb = false
          · rw [if_pos h3] at h
            cases h
            simp
          · rw [if_neg h3] at h
            cases impl with
            | raisesPVE =>
              cases h
              simp
            | raisesOther m => cases h
            | succeeds =>
              have := ih (k + 1) (attempts ++ [status]) status res h
              simp at this
              omega

/-- With an empty allowed list the scope scan never fails and collects
every normalized target. -/
theorem scanFiles_nil_allowed (ps : List PSFile) :
    scanFiles [] ps = Except.ok (ps.map validateTarget) := by
  induction ps with
  | nil => rfl
  | cons pf rest ih => simp [scanFiles, ih, Except.map]

/-- A successful scope scan collects only targets that are allowed
(unless the allowed list is empty, in which case anything passes). -/
theorem scanFiles_ok_mem {allowed : List String} :
    ∀ {ps : List PSFile} {touched : List String},
      scanFiles allowed ps = Except.ok touched →
      ∀ x ∈ touched, allowed = [] ∨ x ∈ allowed := by
  intro ps
  induction ps with
  | nil =>
    intro touched h x hx
    rw [scanFiles] at h
    cases h
    cases hx
  | cons pf rest ih =>
    intro touched h x hx
    rw [scanFiles] at h
    by_cases hc : allowed ≠ [] ∧ validateTarget pf ∉ allowed
    · rw [if_pos hc] at h; cases h
    · rw [if_neg hc] at h
      cases hr : scanFiles allowed rest with
      | error e => rw [hr] at h; cases h
      | ok ts =>
        rw [hr] at h
        cases h
        push_neg at hc
        rcases List.mem_cons.mp hx with hx1 | hx2
        · subst hx1
          by_cases ha : allowed = []
          · exact Or.inl ha
          · exact Or.inr (hc ha)
        · exact ih hr x hx2

/-- Only constructor `outOfScope` can come out of the scope scan. -/
theorem scanFiles_error_outOfScope {allowed : List String} :
    ∀ {ps : List PSFile} {e : PVE},
      scanFiles allowed ps = Except.error e →
      ∃ t, e = PVE.outOfScope t ∧ allowed ≠ [] := by
  intro ps
  induction ps with
  | nil => intro e h; rw [scanFiles] at h; cases h
  | cons pf rest ih =>
    intro e h
    rw [scanFiles] at h
    by_cases hc : allowed ≠ [] ∧ validateTarget pf ∉ allowed
    · rw [if_pos hc] at h
      cases h
      exact ⟨validateTarget pf, rfl, hc.1⟩
    · rw [if_neg hc] at h
      cases hr : scanFiles allowed rest with
      | error e' =>
        rw [hr] at h
        cases h
        exact ih hr
      | ok ts => rw [hr] at h; cases h

/-- Insertion into a list never produces the empty list. -/
theorem insertSorted_ne_nil (x : String) (l : List String) :
    insertSorted x l ≠ [] := by
  cases l with
  | nil => simp [insertSorted]
  | cons y ys =>
    rw [insertSorted]
    split <;> simp

/-- Membership after insertion comes from the inserted element or the
original list. -/
theorem mem_insertSorted {x y : String} :
    ∀ {l : List String}, y ∈ insertSorted x l → y = x ∨ y ∈ l := by
  intro l
  induction l with
  | nil => intro h; simpa [insertSorted] using h
  | cons a as ih =>
    intro h
    rw [insertSorted] at h
    split at h
    · simpa using h
    · rcases List.mem_cons.mp h with h1 | h2
      · simp [h1]
      · rcases ih h2 with h3 | h3
        · exact Or.inl h3
        · simp [h3]

/-- Membership in `sorted(set(l))` implies membership in `l`. -/
theorem mem_pySortedSet {y : String} {l : List String}
    (h : y ∈ pySortedSet l) : y ∈ l := by
  have key : ∀ m : List String, y ∈ m.foldr insertSorted [] → y ∈ m := by
    intro m
    induction m with
    | nil => simp
    | cons a as ih =>
      intro hm
      rcases mem_insertSorted hm with h' | h'
      · simp [h']
      · simp [ih h']
  rw [pySortedSet] at h
  exact List.mem_dedup.mp (key _ h)

/-- As Python's `sorted(set(l))`, the result is empty only for empty
input. -/
theorem pySortedSet_ne_nil {l : List String} (h : l ≠ []) :
    pySortedSet l ≠ [] := by
  rw [pySortedSet]
  cases hdd : l.dedup with
  | nil => exact absurd ((List.dedup_eq_nil l).mp hdd) h
  | cons a as =>
    simpa using insertSorted_ne_nil a (as.foldr insertSorted [])

/-- Anatomy of a successful `_validate_patch` run: the stored patch is
the stripped text, it passed the emptiness/`diff --git`/parse checks,
the file list is the sorted unique scan result, is non-empty, and is
within the allowed list when that list is non-empty. -/
theorem validate_patch_ok_spec {parsePS : String → Except String (List PSFile)}
    {p : String} {allowed files : List String} {patch : String}
    (h : validate_patch parsePS p allowed = Except.ok (files, patch)) :
    patch = pyStrip p ∧ pyStrip p ≠ "" ∧ pyIn "diff --git" (pyStrip p) = true ∧
      (∃ ps touched, parsePS (pyStrip p) = Except.ok ps ∧
        scanFiles allowed ps = Except.ok touched ∧ touched ≠ [] ∧
        files = pySortedSet touched) := by
  rw [validate_patch] at h
  by_cases h1 : pyStrip p = ""
  · rw [if_pos h1] at h; cases h
  · rw [if_neg h1] at h
    by_cases h2 : pyIn "diff --git" (pyStrip p)
    · rw [if_neg (by simpa using h2)] at h
      cases hp : parsePS (pyStrip p) with
      | error m => rw [hp] at h; cases h
      | ok ps =>
        rw [hp] at h
        dsimp only at h
        cases hs : scanFiles allowed ps with
        | error e => rw [hs] at h; cases h
        | ok touched =>
          rw [hs] at h
          dsimp only at h
          by_cases h4 : touched = []
          · rw [if_pos h4] at h; cases h
          · rw [if_neg h4] at h
            cases h
            exact ⟨rfl, h1, by simpa using h2, ps, touched, rfl, hs, h4, rfl⟩
    · rw [if_pos (by simpa using h2)] at h
      cases h

/-- Characterization of the hunk selection: the in-range indices of the
selection, in selection order, each mapped to its hunk text. -/
theorem hunksChosen_eq (hs : List String) (chosen : List Int) :
    hunksChosen hs chosen =
      (chosen.filter (inRange hs.length)).map (fun i => hs.getD i.toNat "") := by
  induction chosen with
  | nil => rfl
  | cons i rest ih =>
    by_cases hin : inRange hs.length i = true
    · have hlt : i.toNat < hs.length := by
        have := hin
        simp [inRange] at this
        omega
      rw [hunksChosen, List.filterMap_cons] at *
      rw [List.filter_cons_of_pos hin, List.map_cons]
      simp only [hin, if_true, List.get?_eq_get hlt]
      rw [ih]
      congr 1
      rw [List.getD_eq_get?, List.get?_eq_get hlt]
      rfl
    · rw [hunksChosen, List.filterMap_cons] at *
      rw [List.filter_cons_of_neg (by simpa using hin)]
      simp only [hin, if_false]
      exact ih

/-- Selected hunks are hunks of the block, verbatim. -/
theorem mem_hunksChosen {hs : List String} {chosen : List Int} {h' : String}
    (h : h' ∈ hunksChosen hs chosen) : h' ∈ hs := by
  rw [hunksChosen_eq] at h
  obtain ⟨i, hi, rfl⟩ := List.mem_map.mp h
  have hin : inRange hs.length i = true := (List.mem_filter.mp hi).2
  have hlt : i.toNat < hs.length := by
    simp [inRange] at hin
    omega
  rw [List.getD_eq_get?, List.get?_eq_get hlt]
  exact List.get_mem hs i.toNat hlt

/-- A block contributes nothing exactly when its selection yields no
in-range hunks. -/
theorem blockOut_eq_none_iff (b : HunkBlock) (chosen : List Int) :
    blockOut b chosen = none ↔ hunksChosen b.hunks chosen = [] := by
  rw [blockOut]
  by_cases hc : chosen = []
  · simp [hc, hunksChosen]
  · rw [if_neg hc]
    by_cases hh : hunksChosen b.hunks chosen = []
    · simp [hh]
    · simp [hh]

/-- A contributing block is the synthesized three-line header followed
by the selected hunks. -/
theorem blockOut_eq_some {b : HunkBlock} {chosen : List Int} {out : String}
    (h : blockOut b chosen = some out) :
    out = synthHeader b.file ++ joinNl (hunksChosen b.hunks chosen) ∧
      hunksChosen b.hunks chosen ≠ [] := by
  rw [blockOut] at h
  by_cases hc : chosen = []
  · rw [if_pos hc] at h; cases h
  · rw [if_neg hc] at h
    by_cases hh : hunksChosen b.hunks chosen = []
    · rw [if_pos hh] at h; cases h
    · rw [if_neg hh] at h
      cases h
      exact ⟨rfl, hh⟩

/-- Filtering a selection to its in-range indices does not change the
selected hunks: out-of-range indices are silently ignored. -/
theorem hunksChosen_filter_inRange (hs : List String) (chosen : List Int) :
    hunksChosen hs (chosen.filter (inRange hs.length)) = hunksChosen hs chosen := by
  rw [hunksChosen_eq, hunksChosen_eq, List.filter_filter]
  congr 1
  exact List.filter_congr fun i _ => Bool.and_self _

/-- Association-list lookup skips a non-matching head entry. -/
theorem selGet_cons_ne {k f : String} {l : List Int}
    {sels : List (String × List Int)} (h : f ≠ k) :
    selGet ((k, l) :: sels) f = selGet sels f := by
  rw [selGet, selGet, List.find?_cons]
  have : ((k, l).1 = f) = False := by simpa using (h.symm : ¬ k = f)
  simp [this]

/-- Congruence for the block list under selections that agree on every
parsed file. -/
theorem hunksBlocks_congr {sels sels' : List (String × List Int)} :
    ∀ {bs : List HunkBlock},
      (∀ b ∈ bs, selGet sels b.file = selGet sels' b.file) →
      (bs.filterMap fun b => blockOut b (selGet sels b.file)) =
        bs.filterMap fun b => blockOut b (selGet sels' b.file) := by
  intro bs
  induction bs with
  | nil => intro _; rfl
  | cons b rest ih =>
    intro hcong
    rw [List.filterMap_cons, List.filterMap_cons, hcong b (by simp),
      ih fun b' hb' => hcong b' (by simp [hb'])]

/-- Intact serialization: when the `@@` header carries no trailing
whitespace and every line value is non-blank with no trailing newline,
`apply_plan_files` keeps a hunk's lines verbatim. -/
theorem map_fixpoints {α : Type} (f : α → α) :
    ∀ (l : List α), (∀ v ∈ l, f v = v) → l.map f = l := by
  intro l
  induction l with
  | nil => intro _; rfl
  | cons v rest ih =>
    intro hl
    rw [List.map_cons, hl v (by simp), ih fun w hw => hl w (by simp [hw])]

theorem serializeHunk_intact (h : UHunk) (hh : pyRstripWs h.header = h.header)
    (hne : h.header ≠ "") (hl : ∀ v ∈ h.lineVals, pyRstripNl v = v ∧ v ≠ "") :
    serializeHunk h = joinNl (h.header :: h.lineVals) := by
  have hmap : h.lineVals.map pyRstripNl = h.lineVals :=
    map_fixpoints pyRstripNl h.lineVals fun v hv => (hl v hv).1
  simp only [serializeHunk]
  rw [hh, hmap, List.filter_cons_of_pos (by simpa using hne),
    List.filter_eq_self.mpr fun v hv => decide_eq_true (hl v hv).2]

/-- The `apply_plan_files` block list, as a filter-and-map: one block
per selected file with at least one hunk, made of the synthesized
header plus all its hunks in original order. -/
theorem filesBlocks_eq (ps : List PSFile) (files : List String) :
    filesBlocks ps files =
      (ps.filter fun pf =>
          decide (filesTarget pf ∈ files) && decide (pf.hunks ≠ [])).map
        fun pf => synthHeader (filesTarget pf) ++ joinNl (pf.hunks.map serializeHunk) := by
  induction ps with
  | nil => rfl
  | cons pf rest ih =>
    rw [filesBlocks, List.filterMap_cons]
    dsimp only
    by_cases hm : filesTarget pf ∈ files
    · by_cases hh : pf.hunks = []
      · rw [if_pos hm, if_pos (show pf.hunks.map serializeHunk = [] by simp [hh]),
          List.filter_cons_of_neg (by simp [hh])]
        exact ih
      · rw [if_pos hm,
          if_neg (show ¬ pf.hunks.map serializeHunk = [] by simpa using hh),
          List.filter_cons_of_pos (by simp [hm, hh]), List.map_cons, ← ih]
        rfl
    · rw [if_neg hm, List.filter_cons_of_neg (by simp [hm])]
      exact ih

/-! ### Claim theorems -/

/-- C2 (code bug): `Verifier.run` invokes
`sandbox_test_plan(plan_id, timeout_seconds=..., extra_commands=...)`,
but `orchestrator.sandbox_test_plan` accepts only `plan_id` and
`timeout_seconds`, so every call raises `TypeError` before the sandbox
body runs, and the verify loop — which has no handler around
`verifier.run` — propagates it to its caller instead of receiving a
structured result. -/
theorem verifier_sandbox_call_type_error :
    (∀ body : SandboxRes, verifier_run_call body = Except.error "TypeError") ∧
    (∀ (body : SandboxRes) (mk : SandboxRes → RoundO) (auto_fix : Bool)
        (N : Nat) (init : List String) (st : String), 1 ≤ N →
      verify_plan_loop (faithfulRound body mk) auto_fix N init st =
        Except.error "TypeError") := by
  have hcall : ∀ body : SandboxRes, verifier_run_call body = Except.error "TypeError" := by
    intro body
    rfl
  refine ⟨hcall, ?_⟩
  intro body mk auto_fix N init st hN
  obtain ⟨m, rfl⟩ : ∃ m, N = m + 1 := ⟨N - 1, (Nat.succ_pred_eq_of_pos hN).symm⟩
  rw [verify_plan_loop, verify_go]
  have : faithfulRound body mk 0 = RoundO.raises "TypeError" := by
    rw [faithfulRound, hcall body]
  rw [this]

/-- C2 witness: a concrete verify call with one round budget fails with
the propagated `TypeError`. -/
theorem verifier_sandbox_call_type_error_witness :
    verify_plan_loop
        (faithfulRound ⟨false, false, none⟩ (fun _ => RoundO.raises "x"))
        true 1 [] "pending" = Except.error "TypeError" :=
  verifier_sandbox_call_type_error.2 ⟨false, false, none⟩ (fun _ => RoundO.raises "x")
    true 1 [] "pending" (by decide)

/-- C3 (amended): on the two normal exit paths of branch mode — apply
success and apply failure — the original branch is restored and the
sandbox branch deleted, so the caller's tree equals its pre-call state
(for a clean tree with no stale sandbox branch); the exception path
(modelled by the counterexample) returns without cleanup. -/
theorem sandbox_branch_mode_restore (plan_id : String) (b : Bool) (rc : Int)
    (s : GitState) (hclean : s.dirty = false)
    (hsb : sandboxBranchName plan_id ∉ s.branches) :
    (sandbox_branch_mode plan_id (Except.ok b) (Except.ok rc) s).2 = s := by
  obtain ⟨cur, brs, d⟩ := s
  simp only at hclean hsb
  subst hclean
  cases b <;> simp [sandbox_branch_mode, hsb, List.erase_cons_head]

/-- C3 witness: after an apply failure the concrete state is restored
exactly. -/
theorem sandbox_branch_mode_restore_witness :
    (sandbox_branch_mode "p2" (Except.ok false) (Except.ok 0)
        ⟨"main", ["main"], false⟩).2 = ⟨"main", ["main"], false⟩ :=
  sandbox_branch_mode_restore "p2" false 0 ⟨"main", ["main"], false⟩ (by decide)
    (by decide)

/-- C3 counterexample: when an exception escapes the apply step after
the sandbox branch was checked out (the `except Exception` handler at
orchestrator.py line 112), the function returns with the sandbox branch
still checked out and not deleted — the pre-call state is not
restored, contradicting the claim's "every exit path". -/
theorem sandbox_branch_mode_restore_cex :
    (sandbox_branch_mode "p1" (Except.error "boom") (Except.ok 0)
        ⟨"main", ["main"], false⟩).2 =
      ⟨"agent-sandbox-p1", ["agent-sandbox-p1", "main"], false⟩ ∧
    (⟨"agent-sandbox-p1", ["agent-sandbox-p1", "main"], false⟩ : GitState) ≠
      ⟨"main", ["main"], false⟩ := by
  constructor
  · rfl
  · decide

/-- C4 (amended): a verify call that returns normally executes at most
`max_rounds` rounds, appending one attempt per round: the returned
attempts list has length between the persisted attempts count and that
count plus `max_rounds` (the claim's bound `≤ N` holds only for a plan
with no previously persisted verification attempts). -/
theorem verify_plan_round_budget (oracle : Nat → RoundO) (auto_fix : Bool)
    (N : Nat) (init : List String) (st : String) (res : List String × String)
    (h : verify_plan_loop oracle auto_fix N init st = Except.ok res) :
    init.length ≤ res.1.length ∧ res.1.length ≤ init.length + N :=
  verify_go_ok_length oracle auto_fix N 0 init st res h

/-- C4 witness: a concrete one-round passing run starting from an empty
attempts list. -/
theorem verify_plan_round_budget_witness :
    ([] : List String).length ≤ (["passed"] : List String).length ∧
      (["passed"] : List String).length ≤ ([] : List String).length + 3 :=
  verify_plan_round_budget (fun _ => RoundO.result "passed" false ImplO.succeeds)
    true 3 [] "pending" (["passed"], "passed") (by rfl)

/-- C4 counterexample: with one previously persisted attempt and
`max_rounds = 1`, a single call returns an attempts list of length 2,
refuting "the attempts list it returns has length at most N". -/
theorem verify_plan_round_budget_cex :
    verify_plan_loop (fun _ => RoundO.result "failed" false ImplO.succeeds)
        true 1 ["failed"] "failed" = Except.ok (["failed", "failed"], "failed") ∧
    ¬ (["failed", "failed"] : List String).length ≤ 1 := by
  constructor
  · rfl
  · decide

/-- C5: in both branch mode and copy mode, when `apply_patch_text`
returns `ok=false` the sandbox result has `applied=false` and the test
command is never started. -/
theorem sandbox_apply_failure_skips_tests (plan_id : String)
    (testO : Except String Int) (s : GitState) :
    ((sandbox_branch_mode plan_id (Except.ok false) testO s).1.applied = false ∧
      (sandbox_branch_mode plan_id (Except.ok false) testO s).1.ranTests = false) ∧
    ((sandbox_copy_mode (Except.ok false) testO).applied = false ∧
      (sandbox_copy_mode (Except.ok false) testO).ranTests = false) := by
  constructor
  · rw [sandbox_branch_mode]
    by_cases hd : s.dirty
    · simp [hd]
    · simp [hd]
  · exact ⟨rfl, rfl⟩

/-- C7: `apply_patch_text` returns `ok=true` exactly when one of the
three non-reject strategies exits with return code 0; a failed chain
always ends in the reject-mode attempt with the collected reject
fragments, and a success reports no rejects. -/
theorem apply_patch_text_ok_iff (o : ApplyOracle) :
    ((apply_patch_text o).ok = true ↔
      ∃ a ∈ (apply_patch_text o).attempts,
        (a.kind = StratKind.s1 ∨ a.kind = StratKind.s2 ∨ a.kind = StratKind.s3) ∧
          a.returncode = 0) ∧
    ((apply_patch_text o).ok = false →
      (apply_patch_text o).rejected = o.rejects ∧
        ∃ a ∈ (apply_patch_text o).attempts,
          a.kind = StratKind.rejectMode ∧ a.returncode = o.rcReject) ∧
    ((apply_patch_text o).ok = true → (apply_patch_text o).rejected = []) := by
  obtain ⟨r1, r2, p3, r3, rr, rj⟩ := o
  rw [apply_patch_text]
  by_cases h1 : r1 = 0
  · simp [h1]
  · by_cases h2 : r2 = 0
    · simp [h1, h2]
    · by_cases hp : p3
      · by_cases h3 : r3 = 0
        · simp [h1, h2, hp, h3]
        · simp [h1, h2, hp, h3]
      · simp [h1, h2, hp]

/-- C7 witness: with every strategy failing, the result is a reject-mode
failure whose attempts record the reject run. -/
theorem apply_patch_text_ok_iff_witness :
    (apply_patch_text ⟨1, 1, true, 1, 0, []⟩).rejected = [] ∧
    ∃ a ∈ (apply_patch_text ⟨1, 1, true, 1, 0, []⟩).attempts,
      a.kind = StratKind.rejectMode ∧ a.returncode = 0 :=
  (apply_patch_text_ok_iff ⟨1, 1, true, 1, 0, []⟩).2.1 (by decide)

/-- C8: `apply_plan` discards the result of `apply_patch_text` and
always commits, runs the tests, and reports `applied := true`, even for
an oracle under which every apply strategy failed. -/
theorem apply_plan_ignores_apply_result :
    (∀ (o : ApplyOracle) (p c : String) (rc : Int),
      apply_plan_core (some p) (apply_patch_text o) c rc =
        Except.ok ({ applied := true, commit := c, testsRc := rc },
          [PlanEvent.appliedPatch, PlanEvent.committed, PlanEvent.ranTests])) ∧
    ∃ o : ApplyOracle, (apply_patch_text o).ok = false :=
  ⟨fun _ _ _ _ => rfl, ⟨⟨1, 1, true, 1, 0, []⟩, by decide⟩⟩

/-- C9: the out-of-scope check of `_validate_patch` is gated on a
non-empty allowed list: with an empty plan file list the scope error is
unreachable and any parsed, non-empty, `diff --git`-containing patch is
accepted whatever files it touches; an out-of-scope error implies the
allowed list was non-empty. -/
theorem validate_patch_scope_gate :
    (∀ (parsePS : String → Except String (List PSFile)) (p t : String)
        (allowed : List String),
      validate_patch parsePS p allowed = Except.error (PVE.outOfScope t) →
        allowed ≠ []) ∧
    (∀ (parsePS : String → Except String (List PSFile)) (p : String)
        (ps : List PSFile),
      pyStrip p ≠ "" → pyIn "diff --git" (pyStrip p) = true →
      parsePS (pyStrip p) = Except.ok ps → ps ≠ [] →
      validate_patch parsePS p [] =
        Except.ok (pySortedSet (ps.map validateTarget), pyStrip p)) := by
  constructor
  · intro parsePS p t allowed h
    rw [validate_patch] at h
    by_cases h1 : pyStrip p = ""
    · rw [if_pos h1] at h; cases h
    · rw [if_neg h1] at h
      by_cases h2 : pyIn "diff --git" (pyStrip p)
      · rw [if_neg (by simpa using h2)] at h
        cases hp : parsePS (pyStrip p) with
        | error m => rw [hp] at h; dsimp only at h; cases h
        | ok ps =>
          rw [hp] at h
          dsimp only at h
          cases hs : scanFiles allowed ps with
          | error e =>
            rw [hs] at h
            dsimp only at h
            cases h
            obtain ⟨t', -, hne⟩ := scanFiles_error_outOfScope hs
            exact hne
          | ok touched =>
            rw [hs] at h
            dsimp only at h
            by_cases h4 : touched = []
            · rw [if_pos h4] at h; cases h
            · rw [if_neg h4] at h; cases h
      · rw [if_pos (by simpa using h2)] at h; cases h
  · intro parsePS p ps h1 h2 hp hps
    rw [validate_patch, if_neg h1, if_neg (by simp [h2]), hp]
    dsimp only
    rw [scanFiles_nil_allowed]
    dsimp only
    rw [if_neg (by simpa using hps)]

/-- C9 witness: with an empty allowed list, a patch touching `x.py` is
accepted. -/
theorem validate_patch_scope_gate_witness :
    validate_patch cexParse cexRaw [] =
      Except.ok (pySortedSet ([cexPSFile].map validateTarget), pyStrip cexRaw) :=
  validate_patch_scope_gate.2 cexParse cexRaw [cexPSFile] (by decide) (by decide)
    (by rfl) (by decide)

/-- C1 (amended): every call to `implement_plan` appends exactly one
entry to `implementation.attempts`: on validation failure an error
record (so invalid generator output does leave an entry, contrary to
the original claim), and on success a validated attempt whose stored
patch passed `_validate_patch` and whose touched files are inside the
plan's declared list whenever that list is non-empty (an empty declared
list accepts any touched files). -/
theorem implement_plan_stored_attempts
    (parsePS : String → Except String (List PSFile)) (allowed : List String)
    (raw : String) (fb : Option String) (st : ImplState) :
    (∀ e, (implement_plan_step parsePS allowed raw fb st).2 = Except.error e →
      (implement_plan_step parsePS allowed raw fb st).1.attempts =
        st.attempts ++ [AttemptEntry.errorEntry e fb]) ∧
    (∀ entry, (implement_plan_step parsePS allowed raw fb st).2 = Except.ok entry →
      (implement_plan_step parsePS allowed raw fb st).1.attempts =
        st.attempts ++ [entry] ∧
      ∃ files, entry = AttemptEntry.okEntry raw files (pyStrip raw) fb ∧
        validate_patch parsePS raw allowed = Except.ok (files, pyStrip raw) ∧
        files ≠ [] ∧ (allowed ≠ [] → ∀ f ∈ files, f ∈ allowed)) := by
  cases hv : validate_patch parsePS raw allowed with
  | error e' =>
    constructor
    · intro e he
      rw [implement_plan_step, hv] at he ⊢
      cases he
      rfl
    · intro entry he
      rw [implement_plan_step, hv] at he
      cases he
  | ok pr =>
    obtain ⟨files, patch⟩ := pr
    have hspec := validate_patch_ok_spec hv
    obtain ⟨hpatch, -, -, ps, touched, -, hscan, htne, hfiles⟩ := hspec
    constructor
    · intro e he
      rw [implement_plan_step, hv] at he
      cases he
    · intro entry he
      rw [implement_plan_step, hv] at he ⊢
      cases he
      refine ⟨rfl, files, by rw [hpatch], by rw [hpatch], ?_, ?_⟩
      · rw [hfiles]
        exact pySortedSet_ne_nil htne
      · intro hne f hf
        rcases scanFiles_ok_mem hscan f (mem_pySortedSet (hfiles ▸ hf)) with h0 | h0
        · exact absurd h0 hne
        · exact h0

/-- C1 counterexample: (a) an empty generator output is rejected, yet an
error entry is stored in `implementation.attempts` for that call; (b)
with an empty declared file list a validated attempt touching `x.py` is
stored although its files are not a subset of the declared list. -/
theorem implement_plan_stored_attempts_cex :
    ((implement_plan_step (fun _ => Except.ok ([] : List PSFile)) ["a.py"] "" none
        ⟨[], none⟩).1.attempts =
      [AttemptEntry.errorEntry PVE.emptyPatch none]) ∧
    ((implement_plan_step cexParse [] cexRaw none ⟨[], none⟩).1.attempts =
        [AttemptEntry.okEntry cexRaw ["x.py"] cexRaw none] ∧
      ¬ (["x.py"] : List String) ⊆ []) := by
  refine ⟨by decide, by decide, by decide⟩

/-- C1 witness: the amended theorem applied to the concrete successful
generation over an empty declared list. -/
theorem implement_plan_stored_attempts_witness :
    (implement_plan_step cexParse [] cexRaw none ⟨[], none⟩).1.attempts =
      [] ++ [AttemptEntry.okEntry cexRaw ["x.py"] cexRaw none] :=
  ((implement_plan_stored_attempts cexParse [] cexRaw none ⟨[], none⟩).2
    (AttemptEntry.okEntry cexRaw ["x.py"] cexRaw none) (by decide)).1

/-- C6 (amended): partial serialization emits, per contributing file, a
synthesized three-line header followed by the selected hunks verbatim —
`apply_plan_files` with all of a file's hunks in original order (lines
kept intact when non-blank and free of trailing whitespace/newlines),
`apply_plan_hunks` with the in-range selected hunks in the order the
selection lists them (the original order only for ascending
selections); a file block contributing zero recoverable hunks is
silently omitted in both. -/
theorem partial_serialization_structure :
    (∀ (hs : List String) (chosen : List Int),
      hunksChosen hs chosen =
        (chosen.filter (inRange hs.length)).map fun i => hs.getD i.toNat "") ∧
    (∀ (hs : List String) (chosen : List Int) (h' : String),
      h' ∈ hunksChosen hs chosen → h' ∈ hs) ∧
    (∀ (b : HunkBlock) (chosen : List Int),
      blockOut b chosen = none ↔ hunksChosen b.hunks chosen = []) ∧
    (∀ (b : HunkBlock) (chosen : List Int) (out : String),
      blockOut b chosen = some out →
        out = synthHeader b.file ++ joinNl (hunksChosen b.hunks chosen)) ∧
    (∀ h : UHunk, pyRstripWs h.header = h.header → h.header ≠ "" →
      (∀ v ∈ h.lineVals, pyRstripNl v = v ∧ v ≠ "") →
      serializeHunk h = joinNl (h.header :: h.lineVals)) ∧
    (∀ (ps : List PSFile) (files : List String) (out : String),
      apply_plan_files_core ps files = Except.ok out →
        out = joinNl ((ps.filter fun pf =>
            decide (filesTarget pf ∈ files) && decide (pf.hunks ≠ [])).map
          fun pf => synthHeader (filesTarget pf) ++
            joinNl (pf.hunks.map serializeHunk))) := by
  refine ⟨hunksChosen_eq, fun _ _ _ h => mem_hunksChosen h, blockOut_eq_none_iff,
    fun b chosen out h => (blockOut_eq_some h).1,
    fun h hh hne hl => serializeHunk_intact h hh hne hl, ?_⟩
  intro ps files out h
  rw [apply_plan_files_core] at h
  by_cases hb : filesBlocks ps files = []
  · rw [if_pos hb] at h; cases h
  · rw [if_neg hb] at h
    cases h
    rw [filesBlocks_eq]

/-- C6 counterexample: selecting the hunks of `f.py` as `[1, 0]` emits
hunk 1 before hunk 0 — the selection order, not the original order
required by the claim. -/
theorem partial_serialization_structure_cex :
    apply_plan_hunks_core cexPatch [("f.py", [1, 0])] =
      Except.ok (synthHeader "f.py" ++
        joinNl ["@@ -5 +5 @@\n-c\n+d", "@@ -1 +1 @@\n-a\n+b"]) ∧
    (parse_patch_hunks cexPatch).map HunkBlock.hunks =
      [["@@ -1 +1 @@\n-a\n+b", "@@ -5 +5 @@\n-c\n+d"]] ∧
    hunksChosen ["@@ -1 +1 @@\n-a\n+b", "@@ -5 +5 @@\n-c\n+d"] [1, 0] =
      ["@@ -5 +5 @@\n-c\n+d", "@@ -1 +1 @@\n-a\n+b"] ∧
    (["@@ -5 +5 @@\n-c\n+d", "@@ -1 +1 @@\n-a\n+b"] : List String) ≠
      ["@@ -1 +1 @@\n-a\n+b", "@@ -5 +5 @@\n-c\n+d"] := by
  refine ⟨by rfl, by rfl, by rfl, by decide⟩

/-- C6 witness: intact serialization of a concrete hunk through
`apply_plan_files`. -/
theorem partial_serialization_structure_witness :
    serializeHunk ⟨"@@ -1 +1 @@", ["+x"]⟩ = joinNl ["@@ -1 +1 @@", "+x"] :=
  partial_serialization_structure.2.2.2.2.1 ⟨"@@ -1 +1 @@", ["+x"]⟩ (by decide)
    (by decide) (by decide)

/-- C10: `apply_plan_hunks` ignores hunk indices outside a file's parsed
range and selection keys naming files absent from the patch; it fails —
always with `RuntimeError("No hunks selected")` — exactly when the
selection contributes no hunk at all. -/
theorem apply_plan_hunks_lenient_selection :
    (∀ (patch : String) (sels : List (String × List Int)) (e : String),
      apply_plan_hunks_core patch sels = Except.error e ↔
        (e = "No hunks selected" ∧
          ∀ b ∈ parse_patch_hunks patch,
            hunksChosen b.hunks (selGet sels b.file) = [])) ∧
    (∀ (patch : String) (sels : List (String × List Int)) (k : String)
        (l : List Int),
      k ∉ (parse_patch_hunks patch).map HunkBlock.file →
      apply_plan_hunks_core patch ((k, l) :: sels) =
        apply_plan_hunks_core patch sels) ∧
    (∀ (hs : List String) (chosen : List Int),
      hunksChosen hs (chosen.filter (inRange hs.length)) =
        hunksChosen hs chosen) := by
  refine ⟨?_, ?_, hunksChosen_filter_inRange⟩
  · intro patch sels e
    rw [apply_plan_hunks_core]
    by_cases hb : hunksBlocks patch sels = []
    · rw [if_pos hb]
      constructor
      · intro h
        cases h
        refine ⟨rfl, fun b hb' => ?_⟩
        have := List.filterMap_eq_nil.mp hb b hb'
        exact (blockOut_eq_none_iff b (selGet sels b.file)).mp this
      · intro h; rw [h.1]
    · rw [if_neg hb]
      constructor
      · intro h; cases h
      · intro ⟨he, hall⟩
        exact absurd
          (List.filterMap_eq_nil.mpr fun b hb' =>
            (blockOut_eq_none_iff b (selGet sels b.file)).mpr (hall b hb')) hb
  · intro patch sels k l hk
    have hcong : hunksBlocks patch ((k, l) :: sels) = hunksBlocks patch sels := by
      rw [hunksBlocks, hunksBlocks]
      exact hunksBlocks_congr fun b hb => by
        have hne : b.file ≠ k := fun hbe =>
          hk (List.mem_map.mpr ⟨b, hb, hbe⟩)
        rw [selGet_cons_ne hne]
    rw [apply_plan_hunks_core, apply_plan_hunks_core, hcong]

/-- C10 witness: an unknown file key in the selection map leaves the
result unchanged. -/
theorem apply_plan_hunks_lenient_selection_witness :
    apply_plan_hunks_core cexPatch [("zzz.py", [0]), ("f.py", [0])] =
      apply_plan_hunks_core cexPatch [("f.py", [0])] :=
  apply_plan_hunks_lenient_selection.2.1 cexPatch [("f.py", [0])] "zzz.py" [0]
    (by decide)

end AiAgent
